import Mathlib

/-!
Verification development for kraken2krona (src/kraken2krona.py).

The program reads Kraken 2 style report files, aggregates per-taxon read
counts across files, resolves each taxon's lineage into eight tracked
taxonomic ranks, and emits one tab-separated row per taxon.

Shallow embedding conventions:
* A report line is modelled as its raw `String`; Python's `line.split()`
  (split on whitespace runs, discarding empty tokens) is `splitWs`.
* Python `int(...)` on a split token is `intOfString?` (optional sign,
  decimal digits, single underscores allowed between digits).
* The external `TaxonomyTree` collaborator (stringmeup) is a structure of
  three partial functions; a lookup of an unknown id raises in Python and
  is `none` here.
* Python exceptions are `Except K2KError`; any uncaught exception aborts
  the run, i.e. the pipeline returns `.error`.
* The Python dict `taxon_info_dict` (insertion ordered) is an association
  list `List (Int × TaxonInfo)`.
* `pd.DataFrame(list).set_index` is modelled by `buildTable`: building the
  indexed frame from an empty record list raises `KeyError` in pandas
  (an empty frame has no columns, so column `t_id` is absent).
* The final `to_csv(..., sep=TAB, index=False, header=False)` serializes
  the 9 selected columns; serialization itself is an external collaborator,
  so a row is modelled as its list of 9 rendered fields (`emitFields`),
  with `emitRow` as the tab-joined string.
-/

namespace Kraken2Krona

/-! ## Tokenization and integer parsing (Python `str.split` / `int`) -/

def digitVal (c : Char) : Option Nat :=
  if c.isDigit then some (c.toNat - 48) else none

/-- Digits after the first one: Python `int` accepts single underscores
strictly between digits. `afterUnd` records whether the previous character
was an underscore. -/
def digitsAux : List Char → Nat → Bool → Option Nat
  | [], acc, afterUnd => if afterUnd then none else some acc
  | c :: cs, acc, afterUnd =>
    if c = '_' then
      if afterUnd then none else digitsAux cs acc true
    else
      match digitVal c with
      | some d => digitsAux cs (acc * 10 + d) false
      | none => none

def natOfDigits? : List Char → Option Nat
  | [] => none
  | c :: cs =>
    match digitVal c with
    | some d => digitsAux cs d false
    | none => none

/-- Python `int(s)` on a whitespace-free token: optional single sign,
then a nonempty digit string (with single interior underscores). -/
def intOfString? (s : String) : Option Int :=
  match s.toList with
  | '-' :: rest => (natOfDigits? rest).map (fun n => -(n : Int))
  | '+' :: rest => (natOfDigits? rest).map (fun n => (n : Int))
  | cs => (natOfDigits? cs).map (fun n => (n : Int))

/-- Python `line.split()`: split on whitespace runs, no empty tokens. -/
def splitWsChars : List Char → List Char → List String
  | [], cur => if cur.isEmpty then [] else [String.mk cur.reverse]
  | c :: cs, cur =>
    if c.isWhitespace then
      if cur.isEmpty then splitWsChars cs []
      else String.mk cur.reverse :: splitWsChars cs []
    else splitWsChars cs (c :: cur)

def splitWs (s : String) : List String := splitWsChars s.toList []

/-! ## Data model (`taxonomy_ranks`, `TaxonInfo`, the taxonomy tree) -/

/-- The eight tracked ranks: the Python dict `taxonomy_dict` built over
`taxonomy_ranks.values()`, each value an optional scientific name. -/
structure Ranks where
  t_superkingdom : Option String
  t_kingdom : Option String
  t_phylum : Option String
  t_class : Option String
  t_order : Option String
  t_family : Option String
  t_genus : Option String
  t_species : Option String
deriving DecidableEq, Repr

/-- `{rank: None for rank in taxonomy_ranks.values()}` -/
def Ranks.empty : Ranks := ⟨none, none, none, none, none, none, none, none⟩

/-- Keys of the Python `taxonomy_ranks` dict, in definition order. -/
def trackedRanks : List String :=
  ["superkingdom", "kingdom", "phylum", "class", "order", "family", "genus", "species"]

/-- `taxonomy_dict[taxonomy_ranks[label]] = v` for a tracked rank label. -/
def Ranks.set (r : Ranks) (label : String) (v : String) : Ranks :=
  if label = "superkingdom" then { r with t_superkingdom := some v }
  else if label = "kingdom" then { r with t_kingdom := some v }
  else if label = "phylum" then { r with t_phylum := some v }
  else if label = "class" then { r with t_class := some v }
  else if label = "order" then { r with t_order := some v }
  else if label = "family" then { r with t_family := some v }
  else if label = "genus" then { r with t_genus := some v }
  else if label = "species" then { r with t_species := some v }
  else r

/-- `isnull().all(axis=1)` over the eight rank columns. -/
def Ranks.allAbsent (r : Ranks) : Bool :=
  r.t_superkingdom.isNone && r.t_kingdom.isNone && r.t_phylum.isNone &&
  r.t_class.isNone && r.t_order.isNone && r.t_family.isNone &&
  r.t_genus.isNone && r.t_species.isNone

/-- The `TaxonInfo` dataclass: two counters, the taxon id, and the eight
rank fields (grouped here as `ranks`, exactly the `taxonomy_dict` part). -/
structure TaxonInfo where
  hits_at_clade : Int
  hits_at_taxon : Int
  t_id : Int
  ranks : Ranks
deriving DecidableEq, Repr

/-- The external `stringmeup.taxonomy.TaxonomyTree` collaborator:
`get_lineage`, `get_rank`, `get_name`, each failing (`none`) on ids the
taxonomy dump does not contain. -/
structure TaxonomyTree where
  lineage : Int → Option (List Int)
  rank : Int → Option String
  name : Int → Option String

/-! ## Lineage resolution (`get_taxonomy`) -/

/-- The `for lineage_tax_id in lineage` loop of `get_taxonomy`. -/
def lineageLoop (tt : TaxonomyTree) : List Int → Ranks → Option Ranks
  | [], r => some r
  | j :: rest, r =>
    match tt.rank j with
    | none => none
    | some rk =>
      if trackedRanks.contains rk then
        match tt.name j with
        | none => none
        | some nm => lineageLoop tt rest (r.set rk nm)
      else lineageLoop tt rest r

/-- `get_taxonomy(tax_id, tt)`: all-absent for the reserved id 0 (no
taxonomy lookup), otherwise walk the lineage and record the scientific
names of the tracked ranks. -/
def get_taxonomy (tax_id : Int) (tt : TaxonomyTree) : Option Ranks :=
  if tax_id = 0 then some Ranks.empty
  else
    match tt.lineage tax_id with
    | none => none
    | some lin => lineageLoop tt lin Ranks.empty

/-! ## Aggregation (`parse_report` and the main loop over report files) -/

inductive K2KError where
  | malformedLine
  | unresolvableTaxon
  | emptyTable
deriving DecidableEq, Repr

/-- `int(line[k])` on the split line: IndexError or ValueError become
`malformedLine`. -/
def parseField (tokens : List String) (k : Nat) : Except K2KError Int :=
  match tokens.get? k with
  | none => .error .malformedLine
  | some s =>
    match intOfString? s with
    | none => .error .malformedLine
    | some n => .ok n

/-- The three parses of a report line, in source order:
`int(line[1])`, `int(line[2])`, `int(line[4])`. -/
def parseLine (line : String) : Except K2KError (Int × Int × Int) :=
  match parseField (splitWs line) 1 with
  | .error e => .error e
  | .ok c =>
    match parseField (splitWs line) 2 with
    | .error e => .error e
    | .ok t =>
      match parseField (splitWs line) 4 with
      | .error e => .error e
      | .ok i => .ok (c, t, i)

/-- `taxon_info_dict`, insertion ordered. -/
abbrev TaxonDict := List (Int × TaxonInfo)

def find? : TaxonDict → Int → Option TaxonInfo
  | [], _ => none
  | (k, v) :: rest, i => if k = i then some v else find? rest i

/-- In-place mutation of the record stored under key `i`. -/
def upd : TaxonDict → Int → (TaxonInfo → TaxonInfo) → TaxonDict
  | [], _, _ => []
  | (k, v) :: rest, i, f =>
    (if k = i then (k, f v) else (k, v)) :: upd rest i f

/-- One iteration of the `for line in report_file_object` loop of
`parse_report`. -/
def processLine (tt : TaxonomyTree) (d : TaxonDict) (line : String) :
    Except K2KError TaxonDict :=
  match parseLine line with
  | .error e => .error e
  | .ok (c, t, i) =>
    match find? d i with
    | some _ =>
        .ok (upd d i fun info =>
          { info with hits_at_clade := info.hits_at_clade + c,
                      hits_at_taxon := info.hits_at_taxon + t })
    | none =>
        match get_taxonomy i tt with
        | none => .error .unresolvableTaxon
        | some rks => .ok (d ++ [(i, TaxonInfo.mk c t i rks)])

/-- `parse_report`: fold `processLine` over the lines of one report file,
starting from the pre-filled dict. -/
def parse_report (tt : TaxonomyTree) : List String → TaxonDict →
    Except K2KError TaxonDict
  | [], d => .ok d
  | l :: ls, d =>
    match processLine tt d l with
    | .error e => .error e
    | .ok d2 => parse_report tt ls d2

/-- The `for report_filename in args.kraken_report` loop. -/
def aggregateFrom (tt : TaxonomyTree) : List (List String) → TaxonDict →
    Except K2KError TaxonDict
  | [], d => .ok d
  | f :: fs, d =>
    match parse_report tt f d with
    | .error e => .error e
    | .ok d2 => aggregateFrom tt fs d2

def aggregate (tt : TaxonomyTree) (files : List (List String)) :
    Except K2KError TaxonDict :=
  aggregateFrom tt files []

/-! ## Table construction, filtering, naming, emission (`kraken2krona`) -/

/-- `pd.DataFrame(taxon_info_list).set_index(t_id_column)`: a frame built
from an empty record list has no columns, so pandas `set_index` raises
`KeyError`.  Modelled from the spec and the pandas contract: the table
build fails on an empty record set, otherwise keeps the records. -/
def buildTable (records : List TaxonInfo) : Except K2KError (List TaxonInfo) :=
  if records.isEmpty then .error .emptyTable else .ok records

/-- `if not args.include_unclassified: taxon_info_df.drop(0)`. -/
def dropUnclassified (include_unclassified : Bool) (records : List TaxonInfo) :
    List TaxonInfo :=
  if include_unclassified then records
  else records.filter fun info => info.t_id != 0

/-- The body of the empty-lineage naming loop: rows with all eight rank
columns null get a display name in `t_superkingdom`. -/
def nameEmptyRow (tt : TaxonomyTree) (info : TaxonInfo) :
    Except K2KError TaxonInfo :=
  if info.ranks.allAbsent then
    if info.t_id = 0 then
      .ok { info with ranks := { info.ranks with t_superkingdom := some "Unclassified" } }
    else
      match tt.name info.t_id with
      | none => .error .unresolvableTaxon
      | some nm =>
          .ok { info with ranks := { info.ranks with t_superkingdom := some nm } }
  else .ok info

/-- The empty-lineage naming pass over the whole record set. -/
def nameEmptyRows (tt : TaxonomyTree) : List TaxonInfo →
    Except K2KError (List TaxonInfo)
  | [] => .ok []
  | a :: rest =>
    match nameEmptyRow tt a with
    | .error e => .error e
    | .ok b =>
      match nameEmptyRows tt rest with
      | .error e => .error e
      | .ok bs => .ok (b :: bs)

/-- Rendering of one cell: pandas writes null cells as empty fields. -/
def renderOpt : Option String → String
  | none => ""
  | some s => s

/-- The 9 output columns of one row, in source order:
`cols = [hits_at_taxon] + taxonomy_cols`. -/
def emitFields (info : TaxonInfo) : List String :=
  [toString info.hits_at_taxon,
   renderOpt info.ranks.t_superkingdom,
   renderOpt info.ranks.t_kingdom,
   renderOpt info.ranks.t_phylum,
   renderOpt info.ranks.t_class,
   renderOpt info.ranks.t_order,
   renderOpt info.ranks.t_family,
   renderOpt info.ranks.t_genus,
   renderOpt info.ranks.t_species]

/-- One serialized row of the tab-separated output. -/
def emitRow (info : TaxonInfo) : String :=
  String.intercalate "\t" (emitFields info)

/-- The `kraken2krona` pipeline after argument parsing and taxonomy-tree
construction: aggregate all report files, build the indexed table, drop
the unclassified row unless requested, run the empty-lineage naming pass,
emit the 9 columns per remaining record. -/
def kraken2krona (tt : TaxonomyTree) (files : List (List String))
    (include_unclassified : Bool) : Except K2KError (List (List String)) :=
  match aggregate tt files with
  | .error e => .error e
  | .ok d =>
    match buildTable (d.map Prod.snd) with
    | .error e => .error e
    | .ok table =>
      match nameEmptyRows tt (dropUnclassified include_unclassified table) with
      | .error e => .error e
      | .ok named => .ok (named.map emitFields)

/-- The same pipeline with rows serialized as tab-joined strings. -/
def kraken2kronaStrings (tt : TaxonomyTree) (files : List (List String))
    (include_unclassified : Bool) : Except K2KError (List String) :=
  (kraken2krona tt files include_unclassified).map fun rows =>
    rows.map (String.intercalate "\t")

/-! ## Derived observations used by the statements -/

/-- Taxon-level counter currently stored for id `i` (0 when absent). -/
def hitsTaxonAt (d : TaxonDict) (i : Int) : Int :=
  match find? d i with
  | some info => info.hits_at_taxon
  | none => 0

/-- Clade-level counter currently stored for id `i` (0 when absent). -/
def hitsCladeAt (d : TaxonDict) (i : Int) : Int :=
  match find? d i with
  | some info => info.hits_at_clade
  | none => 0

/-- Taxon-level contribution of one line to the counter of id `i`. -/
def taxonContrib (i : Int) (l : String) : Int :=
  match parseLine l with
  | .ok (_, t, j) => if j = i then t else 0
  | .error _ => 0

/-- Clade-level contribution of one line to the counter of id `i`. -/
def cladeContrib (i : Int) (l : String) : Int :=
  match parseLine l with
  | .ok (c, _, j) => if j = i then c else 0
  | .error _ => 0

def taxonSum (i : Int) (ls : List String) : Int :=
  (ls.map (taxonContrib i)).sum

def cladeSum (i : Int) (ls : List String) : Int :=
  (ls.map (cladeContrib i)).sum

/-- The taxon id a line parses to, when it parses at all. -/
def lineTaxonId (l : String) : Option Int :=
  match parseLine l with
  | .ok (_, _, i) => some i
  | .error _ => none

/-- A line the aggregator can digest: it parses, and its taxon id is
resolvable (so a first sighting can build the record). -/
def goodLine (tt : TaxonomyTree) (l : String) : Prop :=
  ∃ c t i, parseLine l = .ok (c, t, i) ∧ (get_taxonomy i tt).isSome

/-- Detects an output row whose first rank field reads Unclassified. -/
def unclFieldP (row : List String) : Bool :=
  row.get? 1 == some "Unclassified"

/-! ## Dictionary lemmas -/

theorem find?_upd (d : TaxonDict) (i : Int) (f : TaxonInfo → TaxonInfo) (j : Int) :
    find? (upd d i f) j = if j = i then (find? d i).map f else find? d j := by
  induction d with
  | nil =>
    simp only [upd, find?]
    split <;> rfl
  | cons p rest ih =>
    obtain ⟨k, v⟩ := p
    by_cases hki : k = i
    · subst hki
      rw [upd, if_pos rfl]
      by_cases hkj : k = j
      · subst hkj
        simp [find?]
      · simp [find?, hkj, Ne.symm hkj, ih]
    · rw [upd, if_neg hki]
      by_cases hkj : k = j
      · subst hkj
        simp [find?, Ne.symm hki, hki]
      · simp [find?, hkj, hki, ih]

theorem find?_append (d e : TaxonDict) (j : Int) :
    find? (d ++ e) j = (find? d j).or (find? e j) := by
  induction d with
  | nil => simp [find?]
  | cons p rest ih =>
    obtain ⟨k, v⟩ := p
    by_cases h : k = j <;> simp [find?, h, ih]

theorem find?_eq_none (d : TaxonDict) (j : Int) :
    find? d j = none ↔ ∀ p ∈ d, p.1 ≠ j := by
  induction d with
  | nil => simp [find?]
  | cons p rest ih =>
    obtain ⟨k, v⟩ := p
    by_cases h : k = j <;> simp [find?, h, ih]

theorem find?_of_mem (d : TaxonDict) (p : Int × TaxonInfo)
    (hnd : (d.map Prod.fst).Nodup) (hp : p ∈ d) : find? d p.1 = some p.2 := by
  induction d with
  | nil => cases hp
  | cons q rest ih =>
    rcases List.mem_cons.mp hp with heq | hmem
    · subst heq
      simp [find?]
    · have hq1 : q.1 ≠ p.1 := by
        intro hcontra
        have : p.1 ∈ rest.map Prod.fst := List.mem_map_of_mem Prod.fst hmem
        rw [List.map_cons] at hnd
        exact (List.nodup_cons.mp hnd).1 (hcontra ▸ this)
      obtain ⟨k, v⟩ := q
      simp only [find?, if_neg hq1]
      exact ih (List.nodup_cons.mp (by rw [List.map_cons] at hnd; exact hnd)).2 hmem

/-! ## Counter lemmas: one line adds exactly its parsed contribution -/

theorem processLine_counts (tt : TaxonomyTree) (d : TaxonDict) (l : String)
    (d2 : TaxonDict) (h : processLine tt d l = .ok d2) (j : Int) :
    hitsTaxonAt d2 j = hitsTaxonAt d j + taxonContrib j l ∧
    hitsCladeAt d2 j = hitsCladeAt d j + cladeContrib j l := by
  unfold processLine at h
  cases hp : parseLine l with
  | error e => rw [hp] at h; cases h
  | ok trip =>
    obtain ⟨c, t, i⟩ := trip
    rw [hp] at h
    dsimp only at h
    simp only [taxonContrib, cladeContrib, hp]
    cases hf : find? d i with
    | some info =>
      rw [hf] at h
      simp only [Except.ok.injEq] at h
      subst h
      constructor
      · unfold hitsTaxonAt
        rw [find?_upd]
        by_cases hji : j = i
        · subst hji
          rw [if_pos rfl, hf, if_pos rfl]
          simp [hf]
        · rw [if_neg hji, if_neg (fun hij => hji hij.symm)]
          simp
      · unfold hitsCladeAt
        rw [find?_upd]
        by_cases hji : j = i
        · subst hji
          rw [if_pos rfl, hf, if_pos rfl]
          simp [hf]
        · rw [if_neg hji, if_neg (fun hij => hji hij.symm)]
          simp
    | none =>
      rw [hf] at h
      cases hgt : get_taxonomy i tt with
      | none => rw [hgt] at h; cases h
      | some rks =>
        rw [hgt] at h
        simp only [Except.ok.injEq] at h
        subst h
        constructor
        · unfold hitsTaxonAt
          rw [find?_append]
          by_cases hji : j = i
          · subst hji
            rw [hf, if_pos rfl]
            simp [find?]
          · rw [if_neg (fun hij => hji hij.symm)]
            cases hdj : find? d j <;> simp [find?, Option.or, Ne.symm hji]
        · unfold hitsCladeAt
          rw [find?_append]
          by_cases hji : j = i
          · subst hji
            rw [hf, if_pos rfl]
            simp [find?]
          · rw [if_neg (fun hij => hji hij.symm)]
            cases hdj : find? d j <;> simp [find?, Option.or, Ne.symm hji]

theorem parse_report_counts (tt : TaxonomyTree) (ls : List String)
    (d d2 : TaxonDict) (h : parse_report tt ls d = .ok d2) (j : Int) :
    hitsTaxonAt d2 j = hitsTaxonAt d j + taxonSum j ls ∧
    hitsCladeAt d2 j = hitsCladeAt d j + cladeSum j ls := by
  induction ls generalizing d with
  | nil =>
    unfold parse_report at h
    simp only [Except.ok.injEq] at h
    subst h
    simp [taxonSum, cladeSum]
  | cons l rest ih =>
    unfold parse_report at h
    cases hpl : processLine tt d l with
    | error e => rw [hpl] at h; cases h
    | ok d1 =>
      rw [hpl] at h
      obtain ⟨ht1, hc1⟩ := processLine_counts tt d l d1 hpl j
      obtain ⟨ht2, hc2⟩ := ih d1 h
      constructor
      · rw [ht2, ht1]
        simp only [taxonSum, List.map_cons, List.sum_cons]
        ring
      · rw [hc2, hc1]
        simp only [cladeSum, List.map_cons, List.sum_cons]
        ring

theorem aggregateFrom_counts (tt : TaxonomyTree) (fs : List (List String))
    (d d2 : TaxonDict) (h : aggregateFrom tt fs d = .ok d2) (j : Int) :
    hitsTaxonAt d2 j = hitsTaxonAt d j + taxonSum j fs.flatten ∧
    hitsCladeAt d2 j = hitsCladeAt d j + cladeSum j fs.flatten := by
  induction fs generalizing d with
  | nil =>
    unfold aggregateFrom at h
    simp only [Except.ok.injEq] at h
    subst h
    simp [taxonSum, cladeSum]
  | cons f fs ih =>
    unfold aggregateFrom at h
    cases hpf : parse_report tt f d with
    | error e => rw [hpf] at h; cases h
    | ok d1 =>
      rw [hpf] at h
      obtain ⟨ht1, hc1⟩ := parse_report_counts tt f d d1 hpf j
      obtain ⟨ht2, hc2⟩ := ih d1 h
      constructor
      · rw [ht2, ht1]
        simp only [taxonSum, List.flatten_cons, List.map_append, List.sum_append]
        ring
      · rw [hc2, hc1]
        simp only [cladeSum, List.flatten_cons, List.map_append, List.sum_append]
        ring

theorem aggregate_counts (tt : TaxonomyTree) (files : List (List String))
    (d : TaxonDict) (h : aggregate tt files = .ok d) (j : Int) :
    hitsTaxonAt d j = taxonSum j files.flatten ∧
    hitsCladeAt d j = cladeSum j files.flatten := by
  have := aggregateFrom_counts tt files [] d h j
  simpa [hitsTaxonAt, hitsCladeAt, find?] using this

/-! ## Success characterization: which inputs the aggregator digests -/

theorem processLine_ok_of_good (tt : TaxonomyTree) (d : TaxonDict) (l : String)
    (hg : goodLine tt l) : ∃ d2, processLine tt d l = .ok d2 := by
  obtain ⟨c, t, i, hp, hres⟩ := hg
  unfold processLine
  rw [hp]
  dsimp only
  cases hf : find? d i with
  | some info => exact ⟨_, rfl⟩
  | none =>
    cases hgt : get_taxonomy i tt with
    | none => rw [hgt] at hres; cases hres
    | some rks => exact ⟨_, rfl⟩

theorem parse_report_ok_of_good (tt : TaxonomyTree) (ls : List String)
    (hg : ∀ l ∈ ls, goodLine tt l) (d : TaxonDict) :
    ∃ d2, parse_report tt ls d = .ok d2 := by
  induction ls generalizing d with
  | nil => exact ⟨d, rfl⟩
  | cons l rest ih =>
    obtain ⟨d1, hd1⟩ := processLine_ok_of_good tt d l (hg l (List.mem_cons_self l rest))
    obtain ⟨d2, hd2⟩ := ih (fun x hx => hg x (List.mem_cons_of_mem l hx)) d1
    refine ⟨d2, ?_⟩
    unfold parse_report
    rw [hd1]
    exact hd2

theorem aggregateFrom_ok_of_good (tt : TaxonomyTree) (fs : List (List String))
    (hg : ∀ l ∈ fs.flatten, goodLine tt l) (d : TaxonDict) :
    ∃ d2, aggregateFrom tt fs d = .ok d2 := by
  induction fs generalizing d with
  | nil => exact ⟨d, rfl⟩
  | cons f fs ih =>
    obtain ⟨d1, hd1⟩ := parse_report_ok_of_good tt f
      (fun x hx => hg x (by rw [List.flatten_cons, List.mem_append]; exact Or.inl hx)) d
    obtain ⟨d2, hd2⟩ := ih
      (fun x hx => hg x (by rw [List.flatten_cons, List.mem_append]; exact Or.inr hx)) d1
    refine ⟨d2, ?_⟩
    unfold aggregateFrom
    rw [hd1]
    exact hd2

/-- Every key stored in the dict has a resolvable lineage. -/
def keysResolvable (tt : TaxonomyTree) (d : TaxonDict) : Prop :=
  ∀ i, (find? d i).isSome → (get_taxonomy i tt).isSome

theorem processLine_good_of_ok (tt : TaxonomyTree) (d : TaxonDict) (l : String)
    (d2 : TaxonDict) (hk : keysResolvable tt d) (h : processLine tt d l = .ok d2) :
    goodLine tt l ∧ keysResolvable tt d2 := by
  unfold processLine at h
  cases hp : parseLine l with
  | error e => rw [hp] at h; cases h
  | ok trip =>
    obtain ⟨c, t, i⟩ := trip
    rw [hp] at h
    dsimp only at h
    cases hf : find? d i with
    | some info =>
      rw [hf] at h
      simp only [Except.ok.injEq] at h
      subst h
      refine ⟨⟨c, t, i, hp, hk i (by rw [hf]; rfl)⟩, ?_⟩
      intro j hj
      rw [find?_upd] at hj
      by_cases hji : j = i
      · subst hji
        exact hk j (by rw [hf]; rfl)
      · rw [if_neg hji] at hj
        exact hk j hj
    | none =>
      rw [hf] at h
      cases hgt : get_taxonomy i tt with
      | none => rw [hgt] at h; cases h
      | some rks =>
        rw [hgt] at h
        simp only [Except.ok.injEq] at h
        subst h
        refine ⟨⟨c, t, i, hp, by rw [hgt]; rfl⟩, ?_⟩
        intro j hj
        rw [find?_append] at hj
        cases hdj : find? d j with
        | some x => exact hk j (by rw [hdj]; rfl)
        | none =>
          rw [hdj] at hj
          by_cases hij : i = j
          · subst hij
            rw [hgt]; rfl
          · simp [find?, hij, Option.or] at hj

theorem parse_report_good_of_ok (tt : TaxonomyTree) (ls : List String)
    (d d2 : TaxonDict) (hk : keysResolvable tt d)
    (h : parse_report tt ls d = .ok d2) :
    (∀ l ∈ ls, goodLine tt l) ∧ keysResolvable tt d2 := by
  induction ls generalizing d with
  | nil =>
    unfold parse_report at h
    simp only [Except.ok.injEq] at h
    subst h
    exact ⟨by simp, hk⟩
  | cons l rest ih =>
    unfold parse_report at h
    cases hpl : processLine tt d l with
    | error e => rw [hpl] at h; cases h
    | ok d1 =>
      rw [hpl] at h
      obtain ⟨hgl, hk1⟩ := processLine_good_of_ok tt d l d1 hk hpl
      obtain ⟨hgrest, hk2⟩ := ih d1 hk1 h
      refine ⟨?_, hk2⟩
      intro x hx
      rcases List.mem_cons.mp hx with hx | hx
      · exact hx ▸ hgl
      · exact hgrest x hx

theorem aggregateFrom_good_of_ok (tt : TaxonomyTree) (fs : List (List String))
    (d d2 : TaxonDict) (hk : keysResolvable tt d)
    (h : aggregateFrom tt fs d = .ok d2) :
    (∀ l ∈ fs.flatten, goodLine tt l) ∧ keysResolvable tt d2 := by
  induction fs generalizing d with
  | nil =>
    unfold aggregateFrom at h
    simp only [Except.ok.injEq] at h
    subst h
    exact ⟨by simp, hk⟩
  | cons f fs ih =>
    unfold aggregateFrom at h
    cases hpf : parse_report tt f d with
    | error e => rw [hpf] at h; cases h
    | ok d1 =>
      rw [hpf] at h
      obtain ⟨hgf, hk1⟩ := parse_report_good_of_ok tt f d d1 hk hpf
      obtain ⟨hgrest, hk2⟩ := ih d1 hk1 h
      refine ⟨?_, hk2⟩
      intro x hx
      rw [List.flatten_cons, List.mem_append] at hx
      rcases hx with hx | hx
      · exact hgf x hx
      · exact hgrest x hx

theorem aggregate_good_of_ok (tt : TaxonomyTree) (files : List (List String))
    (d : TaxonDict) (h : aggregate tt files = .ok d) :
    ∀ l ∈ files.flatten, goodLine tt l :=
  (aggregateFrom_good_of_ok tt files [] d (fun _ hi => by simp [find?] at hi) h).1

/-! ## Key membership: processed ids are stored -/

theorem processLine_mono (tt : TaxonomyTree) (d : TaxonDict) (l : String)
    (d2 : TaxonDict) (h : processLine tt d l = .ok d2) (j : Int)
    (hj : (find? d j).isSome) : (find? d2 j).isSome := by
  unfold processLine at h
  cases hp : parseLine l with
  | error e => rw [hp] at h; cases h
  | ok trip =>
    obtain ⟨c, t, i⟩ := trip
    rw [hp] at h
    dsimp only at h
    cases hf : find? d i with
    | some info =>
      rw [hf] at h
      simp only [Except.ok.injEq] at h
      subst h
      rw [find?_upd]
      by_cases hji : j = i
      · subst hji; rw [if_pos rfl, hf]; rfl
      · rw [if_neg hji]; exact hj
    | none =>
      rw [hf] at h
      cases hgt : get_taxonomy i tt with
      | none => rw [hgt] at h; cases h
      | some rks =>
        rw [hgt] at h
        simp only [Except.ok.injEq] at h
        subst h
        rw [find?_append]
        cases hdj : find? d j with
        | some x => rfl
        | none => rw [hdj] at hj; cases hj

theorem processLine_mem_self (tt : TaxonomyTree) (d : TaxonDict) (l : String)
    (d2 : TaxonDict) (h : processLine tt d l = .ok d2) (i : Int)
    (hi : lineTaxonId l = some i) : (find? d2 i).isSome := by
  unfold processLine at h
  unfold lineTaxonId at hi
  cases hp : parseLine l with
  | error e => rw [hp] at h; cases h
  | ok trip =>
    obtain ⟨c, t, i'⟩ := trip
    rw [hp] at h
    rw [hp] at hi
    dsimp only at hi
    simp only [Option.some.injEq] at hi
    subst hi
    dsimp only at h
    cases hf : find? d i' with
    | some info =>
      rw [hf] at h
      simp only [Except.ok.injEq] at h
      subst h
      rw [find?_upd, if_pos rfl, hf]
      rfl
    | none =>
      rw [hf] at h
      cases hgt : get_taxonomy i' tt with
      | none => rw [hgt] at h; cases h
      | some rks =>
        rw [hgt] at h
        simp only [Except.ok.injEq] at h
        subst h
        rw [find?_append, hf]
        simp [find?, Option.or]

theorem parse_report_mem (tt : TaxonomyTree) (ls : List String)
    (d d2 : TaxonDict) (h : parse_report tt ls d = .ok d2) :
    (∀ j, (find? d j).isSome → (find? d2 j).isSome) ∧
    (∀ l ∈ ls, ∀ i, lineTaxonId l = some i → (find? d2 i).isSome) := by
  induction ls generalizing d with
  | nil =>
    unfold parse_report at h
    simp only [Except.ok.injEq] at h
    subst h
    exact ⟨fun _ hj => hj, by simp⟩
  | cons l rest ih =>
    unfold parse_report at h
    cases hpl : processLine tt d l with
    | error e => rw [hpl] at h; cases h
    | ok d1 =>
      rw [hpl] at h
      obtain ⟨ihmono, ihmem⟩ := ih d1 h
      refine ⟨fun j hj => ihmono j (processLine_mono tt d l d1 hpl j hj), ?_⟩
      intro x hx i hi
      rcases List.mem_cons.mp hx with hx | hx
      · exact ihmono i (processLine_mem_self tt d l d1 hpl i (hx ▸ hi))
      · exact ihmem x hx i hi

theorem aggregate_mem (tt : TaxonomyTree) (files : List (List String))
    (d : TaxonDict) (h : aggregate tt files = .ok d) :
    ∀ l ∈ files.flatten, ∀ i, lineTaxonId l = some i → (find? d i).isSome := by
  suffices hsuff : ∀ fs (d0 d2 : TaxonDict), aggregateFrom tt fs d0 = .ok d2 →
      (∀ j, (find? d0 j).isSome → (find? d2 j).isSome) ∧
      (∀ l ∈ fs.flatten, ∀ i, lineTaxonId l = some i → (find? d2 i).isSome) by
    exact (hsuff files [] d h).2
  intro fs
  induction fs with
  | nil =>
    intro d0 d2 h0
    unfold aggregateFrom at h0
    simp only [Except.ok.injEq] at h0
    subst h0
    exact ⟨fun _ hj => hj, by simp⟩
  | cons f fs ih =>
    intro d0 d2 h0
    unfold aggregateFrom at h0
    cases hpf : parse_report tt f d0 with
    | error e => rw [hpf] at h0; cases h0
    | ok d1 =>
      rw [hpf] at h0
      obtain ⟨fmono, fmem⟩ := parse_report_mem tt f d0 d1 hpf
      obtain ⟨ihmono, ihmem⟩ := ih d1 d2 h0
      refine ⟨fun j hj => ihmono j (fmono j hj), ?_⟩
      intro x hx i hi
      rw [List.flatten_cons, List.mem_append] at hx
      rcases hx with hx | hx
      · exact ihmono i (fmem x hx i hi)
      · exact ihmem x hx i hi

/-! ## Structural invariants of the aggregated dictionary -/

theorem keys_upd (d : TaxonDict) (i : Int) (f : TaxonInfo → TaxonInfo) :
    (upd d i f).map Prod.fst = d.map Prod.fst := by
  induction d with
  | nil => rfl
  | cons p rest ih =>
    obtain ⟨k, v⟩ := p
    by_cases h : k = i <;> simp [upd, h, ih]

theorem mem_upd (d : TaxonDict) (i : Int) (f : TaxonInfo → TaxonInfo)
    (p : Int × TaxonInfo) (hp : p ∈ upd d i f) :
    ∃ q ∈ d, p = if q.1 = i then (q.1, f q.2) else q := by
  induction d with
  | nil => cases hp
  | cons q0 rest ih =>
    obtain ⟨k, v⟩ := q0
    rw [upd] at hp
    rcases List.mem_cons.mp hp with h | h
    · exact ⟨(k, v), List.mem_cons_self _ _, h⟩
    · obtain ⟨q, hq, hpq⟩ := ih h
      exact ⟨q, List.mem_cons_of_mem _ hq, hpq⟩

/-- The record set the aggregator maintains: each stored record carries its
own key as `t_id`, keys are unique, and each record's rank fields are
exactly the pure lineage resolution of its id. -/
def wfDict (tt : TaxonomyTree) (d : TaxonDict) : Prop :=
  (∀ p ∈ d, p.2.t_id = p.1) ∧
  (d.map Prod.fst).Nodup ∧
  (∀ p ∈ d, get_taxonomy p.1 tt = some p.2.ranks)

theorem processLine_wf (tt : TaxonomyTree) (d : TaxonDict) (l : String)
    (d2 : TaxonDict) (hw : wfDict tt d) (h : processLine tt d l = .ok d2) :
    wfDict tt d2 := by
  obtain ⟨hid, hnd, hrk⟩ := hw
  unfold processLine at h
  cases hp : parseLine l with
  | error e => rw [hp] at h; cases h
  | ok trip =>
    obtain ⟨c, t, i⟩ := trip
    rw [hp] at h
    dsimp only at h
    cases hf : find? d i with
    | some info =>
      rw [hf] at h
      simp only [Except.ok.injEq] at h
      subst h
      refine ⟨?_, ?_, ?_⟩
      · intro p hp2
        obtain ⟨q, hq, hpq⟩ := mem_upd d i _ p hp2
        by_cases hqi : q.1 = i
        · rw [hpq, if_pos hqi]
          exact hid q hq
        · rw [hpq, if_neg hqi]
          exact hid q hq
      · rw [keys_upd]
        exact hnd
      · intro p hp2
        obtain ⟨q, hq, hpq⟩ := mem_upd d i _ p hp2
        by_cases hqi : q.1 = i
        · rw [hpq, if_pos hqi]
          exact hrk q hq
        · rw [hpq, if_neg hqi]
          exact hrk q hq
    | none =>
      rw [hf] at h
      cases hgt : get_taxonomy i tt with
      | none => rw [hgt] at h; cases h
      | some rks =>
        rw [hgt] at h
        simp only [Except.ok.injEq] at h
        subst h
        have hnotmem : i ∉ d.map Prod.fst := by
          intro hmem
          obtain ⟨q, hq, hq1⟩ := List.mem_map.mp hmem
          exact ((find?_eq_none d i).mp hf q hq) hq1
        refine ⟨?_, ?_, ?_⟩
        · intro p hp2
          rcases List.mem_append.mp hp2 with h2 | h2
          · exact hid p h2
          · simp only [List.mem_singleton] at h2
            subst h2
            rfl
        · rw [List.map_append]
          simp only [List.map_cons, List.map_nil]
          rw [List.nodup_append]
          exact ⟨hnd, List.nodup_singleton i, by simpa using hnotmem⟩
        · intro p hp2
          rcases List.mem_append.mp hp2 with h2 | h2
          · exact hrk p h2
          · simp only [List.mem_singleton] at h2
            subst h2
            simpa using hgt

theorem parse_report_wf (tt : TaxonomyTree) (ls : List String)
    (d d2 : TaxonDict) (hw : wfDict tt d) (h : parse_report tt ls d = .ok d2) :
    wfDict tt d2 := by
  induction ls generalizing d with
  | nil =>
    unfold parse_report at h
    simp only [Except.ok.injEq] at h
    subst h
    exact hw
  | cons l rest ih =>
    unfold parse_report at h
    cases hpl : processLine tt d l with
    | error e => rw [hpl] at h; cases h
    | ok d1 =>
      rw [hpl] at h
      exact ih d1 (processLine_wf tt d l d1 hw hpl) h

theorem aggregate_wf (tt : TaxonomyTree) (files : List (List String))
    (d : TaxonDict) (h : aggregate tt files = .ok d) : wfDict tt d := by
  suffices hsuff : ∀ fs (d0 d2 : TaxonDict), wfDict tt d0 →
      aggregateFrom tt fs d0 = .ok d2 → wfDict tt d2 by
    exact hsuff files [] d ⟨by simp, by simp, by simp⟩ h
  intro fs
  induction fs with
  | nil =>
    intro d0 d2 hw h0
    unfold aggregateFrom at h0
    simp only [Except.ok.injEq] at h0
    subst h0
    exact hw
  | cons f fs ih =>
    intro d0 d2 hw h0
    unfold aggregateFrom at h0
    cases hpf : parse_report tt f d0 with
    | error e => rw [hpf] at h0; cases h0
    | ok d1 =>
      rw [hpf] at h0
      exact ih d1 d2 (parse_report_wf tt f d0 d1 hw hpf) h0

/-! ## Provenance of the superkingdom field -/

/-- Every value the resolver can place in `t_superkingdom` is a scientific
name the taxonomy service returned. -/
def skFromNames (tt : TaxonomyTree) (r : Ranks) : Prop :=
  ∀ s, r.t_superkingdom = some s → ∃ j, tt.name j = some s

theorem sk_of_set (r : Ranks) (label v : String) :
    (r.set label v).t_superkingdom =
      if label = "superkingdom" then some v else r.t_superkingdom := by
  unfold Ranks.set
  split_ifs <;> rfl

theorem lineageLoop_sk (tt : TaxonomyTree) (lin : List Int) (r0 r : Ranks)
    (h : lineageLoop tt lin r0 = some r) (hsk : skFromNames tt r0) :
    skFromNames tt r := by
  induction lin generalizing r0 with
  | nil =>
    unfold lineageLoop at h
    simp only [Option.some.injEq] at h
    subst h
    exact hsk
  | cons j rest ih =>
    unfold lineageLoop at h
    cases hr : tt.rank j with
    | none => rw [hr] at h; cases h
    | some rk =>
      rw [hr] at h
      dsimp only at h
      by_cases htr : trackedRanks.contains rk
      · rw [if_pos htr] at h
        cases hn : tt.name j with
        | none => rw [hn] at h; cases h
        | some nm =>
          rw [hn] at h
          refine ih (r0.set rk nm) h ?_
          intro s hs
          rw [sk_of_set] at hs
          by_cases hrk : rk = "superkingdom"
          · rw [if_pos hrk] at hs
            simp only [Option.some.injEq] at hs
            exact ⟨j, by rw [hn, hs]⟩
          · rw [if_neg hrk] at hs
            exact hsk s hs
      · rw [if_neg htr] at h
        exact ih r0 h hsk

theorem get_taxonomy_sk (tt : TaxonomyTree) (i : Int) (r : Ranks)
    (h : get_taxonomy i tt = some r) : skFromNames tt r := by
  unfold get_taxonomy at h
  by_cases hi : i = 0
  · rw [if_pos hi] at h
    simp only [Option.some.injEq] at h
    subst h
    intro s hs
    simp [Ranks.empty] at hs
  · rw [if_neg hi] at h
    cases hl : tt.lineage i with
    | none => rw [hl] at h; cases h
    | some lin =>
      rw [hl] at h
      refine lineageLoop_sk tt lin Ranks.empty r h ?_
      intro s hs
      simp [Ranks.empty] at hs

/-! ## The empty-lineage naming pass -/

theorem nameEmptyRow_fields (tt : TaxonomyTree) (a b : TaxonInfo)
    (h : nameEmptyRow tt a = .ok b) :
    b.t_id = a.t_id ∧ b.hits_at_taxon = a.hits_at_taxon ∧
    b.hits_at_clade = a.hits_at_clade := by
  unfold nameEmptyRow at h
  cases he : a.ranks.allAbsent with
  | false =>
    rw [he] at h
    simp only [Bool.false_eq_true, if_false, Except.ok.injEq] at h
    subst h
    exact ⟨rfl, rfl, rfl⟩
  | true =>
    rw [he] at h
    simp only [if_true] at h
    by_cases h0 : a.t_id = 0
    · rw [if_pos h0] at h
      simp only [Except.ok.injEq] at h
      subst h
      exact ⟨rfl, rfl, rfl⟩
    · rw [if_neg h0] at h
      cases hn : tt.name a.t_id with
      | none => rw [hn] at h; cases h
      | some nm =>
        rw [hn] at h
        simp only [Except.ok.injEq] at h
        subst h
        exact ⟨rfl, rfl, rfl⟩

theorem nameEmptyRow_zero (tt : TaxonomyTree) (a : TaxonInfo)
    (h0 : a.t_id = 0) (hranks : a.ranks = Ranks.empty) :
    nameEmptyRow tt a =
      .ok { a with ranks := { a.ranks with t_superkingdom := some "Unclassified" } } := by
  unfold nameEmptyRow
  rw [hranks]
  have : Ranks.empty.allAbsent = true := rfl
  rw [this, if_pos rfl, if_pos h0]

theorem nameEmptyRow_zero_ok (tt : TaxonomyTree) (a : TaxonInfo)
    (h0 : a.t_id = 0) : ∃ b, nameEmptyRow tt a = .ok b ∧ b.t_id = 0 := by
  unfold nameEmptyRow
  cases he : a.ranks.allAbsent with
  | false =>
    simp only [Bool.false_eq_true, if_false]
    exact ⟨a, rfl, h0⟩
  | true =>
    simp only [if_true]
    rw [if_pos h0]
    exact ⟨_, rfl, h0⟩

theorem nameEmptyRow_sk_unclassified (tt : TaxonomyTree) (a b : TaxonInfo)
    (h0 : a.t_id = 0) (hranks : a.ranks = Ranks.empty)
    (h : nameEmptyRow tt a = .ok b) :
    b.ranks.t_superkingdom = some "Unclassified" := by
  rw [nameEmptyRow_zero tt a h0 hranks] at h
  simp only [Except.ok.injEq] at h
  subst h
  rfl

theorem nameEmptyRow_sk_of_nonzero (tt : TaxonomyTree) (a b : TaxonInfo)
    (hname : ∀ j s, tt.name j = some s → s ≠ "Unclassified")
    (h0 : a.t_id ≠ 0) (hsk : skFromNames tt a.ranks)
    (h : nameEmptyRow tt a = .ok b) :
    b.ranks.t_superkingdom ≠ some "Unclassified" := by
  unfold nameEmptyRow at h
  cases he : a.ranks.allAbsent with
  | false =>
    rw [he] at h
    simp only [Bool.false_eq_true, if_false, Except.ok.injEq] at h
    subst h
    intro hcontra
    obtain ⟨j, hj⟩ := hsk "Unclassified" hcontra
    exact hname j "Unclassified" hj rfl
  | true =>
    rw [he] at h
    simp only [if_true] at h
    rw [if_neg h0] at h
    cases hn : tt.name a.t_id with
    | none => rw [hn] at h; cases h
    | some nm =>
      rw [hn] at h
      simp only [Except.ok.injEq] at h
      subst h
      intro hcontra
      simp only [Option.some.injEq] at hcontra
      exact hname a.t_id nm hn hcontra

theorem nameEmptyRows_forall2 (tt : TaxonomyTree) (recs named : List TaxonInfo)
    (h : nameEmptyRows tt recs = .ok named) :
    List.Forall₂ (fun a b => nameEmptyRow tt a = .ok b) recs named := by
  induction recs generalizing named with
  | nil =>
    unfold nameEmptyRows at h
    simp only [Except.ok.injEq] at h
    subst h
    exact List.Forall₂.nil
  | cons a rest ih =>
    unfold nameEmptyRows at h
    cases hb : nameEmptyRow tt a with
    | error e => rw [hb] at h; cases h
    | ok b =>
      rw [hb] at h
      cases hrest : nameEmptyRows tt rest with
      | error e => rw [hrest] at h; cases h
      | ok bs =>
        rw [hrest] at h
        simp only [Except.ok.injEq] at h
        subst h
        exact List.Forall₂.cons hb (ih bs hrest)

theorem forall2_mem_right {α β : Type} {R : α → β → Prop}
    {as : List α} {bs : List β} (h : List.Forall₂ R as bs)
    {b : β} (hb : b ∈ bs) : ∃ a ∈ as, R a b := by
  induction h with
  | nil => cases hb
  | @cons a0 b0 as0 bs0 hr hrest ih =>
    rcases List.mem_cons.mp hb with rfl | hb2
    · exact ⟨a0, List.mem_cons_self _ _, hr⟩
    · obtain ⟨a, ha, har⟩ := ih hb2
      exact ⟨a, List.mem_cons_of_mem _ ha, har⟩

theorem forall2_countP {α β : Type} {R : α → β → Prop}
    {as : List α} {bs : List β} (h : List.Forall₂ R as bs)
    (p : α → Bool) (q : β → Bool) (hpq : ∀ a b, R a b → q b = p a) :
    bs.countP q = as.countP p := by
  induction h with
  | nil => rfl
  | @cons a0 b0 as0 bs0 hr hrest ih =>
    rw [List.countP_cons, List.countP_cons, ih, hpq a0 b0 hr]

theorem countP_key_unique (d : TaxonDict) (hnd : (d.map Prod.fst).Nodup)
    (i : Int) (hi : (find? d i).isSome) :
    d.countP (fun p => p.1 == i) = 1 := by
  induction d with
  | nil => simp [find?] at hi
  | cons q rest ih =>
    obtain ⟨k, v⟩ := q
    rw [List.countP_cons]
    rw [List.map_cons] at hnd
    by_cases hk : k = i
    · subst hk
      have hnomem : ∀ p ∈ rest, p.1 ≠ k := by
        intro p hp hpk
        have hmem : p.1 ∈ rest.map Prod.fst := List.mem_map_of_mem Prod.fst hp
        exact (List.nodup_cons.mp hnd).1 (hpk ▸ hmem)
      have hz : rest.countP (fun p => p.1 == k) = 0 := by
        rw [List.countP_eq_zero]
        intro p hp
        simp [hnomem p hp]
      simp [hz]
    · have hi2 : (find? rest i).isSome := by
        unfold find? at hi
        rw [if_neg hk] at hi
        exact hi
      rw [ih (List.nodup_cons.mp hnd).2 hi2]
      simp [hk]

/-! ## Concrete collaborators used by witnesses and counterexamples -/

/-- A taxonomy service that knows nothing. -/
def ttNone : TaxonomyTree :=
  { lineage := fun _ => none, rank := fun _ => none, name := fun _ => none }

/-- Scenario A taxonomy: 1234 is a species named X under superkingdom
Bacteria (node 2). -/
def ttScenA : TaxonomyTree :=
  { lineage := fun i => if i = 1234 then some [1234, 2] else none,
    rank := fun i =>
      if i = 1234 then some "species"
      else if i = 2 then some "superkingdom" else none,
    name := fun i =>
      if i = 1234 then some "X"
      else if i = 2 then some "Bacteria" else none }

/-- Scenario B taxonomy: 99 is a species named Niner. -/
def ttScenB : TaxonomyTree :=
  { lineage := fun i => if i = 99 then some [99] else none,
    rank := fun i => if i = 99 then some "species" else none,
    name := fun i => if i = 99 then some "Niner" else none }

/-! ## C2 -/

/-- C2: lineage resolution for taxon id 0 returns the all-absent rank
mapping for every taxonomy tree; since the result is the same whatever the
tree answers, no Taxonomy Service call is consulted, and the result does
not depend on the later include/exclude decision (the resolver never sees
that flag). -/
theorem unclassified_shortcircuit (tt : TaxonomyTree) :
    get_taxonomy 0 tt = some Ranks.empty ∧
    ∀ tt2 : TaxonomyTree, get_taxonomy 0 tt2 = get_taxonomy 0 tt :=
  ⟨rfl, fun _ => rfl⟩

/-! ## C4 -/

/-- C4: one aggregator step on a line with taxon id `i`: if `i` is already
stored, only the two counters of its record change (rank fields and id are
kept, as the record update shows); if `i` is new, the record is created
with rank fields exactly `get_taxonomy i tt` (the pure resolution, so it
is fixed at first sighting); other ids are untouched either way. -/
theorem lineage_resolved_once (tt : TaxonomyTree) (d : TaxonDict) (l : String)
    (c t i : Int) (d2 : TaxonDict)
    (hparse : parseLine l = .ok (c, t, i))
    (hok : processLine tt d l = .ok d2) :
    (∀ info, find? d i = some info →
       find? d2 i = some { info with hits_at_clade := info.hits_at_clade + c,
                                     hits_at_taxon := info.hits_at_taxon + t }) ∧
    (find? d i = none →
       ∃ r, get_taxonomy i tt = some r ∧ find? d2 i = some (TaxonInfo.mk c t i r)) ∧
    (∀ j, j ≠ i → find? d2 j = find? d j) := by
  unfold processLine at hok
  rw [hparse] at hok
  dsimp only at hok
  cases hf : find? d i with
  | some info0 =>
    rw [hf] at hok
    simp only [Except.ok.injEq] at hok
    subst hok
    refine ⟨?_, ?_, ?_⟩
    · intro info hinfo
      simp only [Option.some.injEq] at hinfo
      subst hinfo
      rw [find?_upd, if_pos rfl, hf]
      rfl
    · intro hnone
      cases hnone
    · intro j hji
      rw [find?_upd, if_neg hji]
  | none =>
    rw [hf] at hok
    cases hgt : get_taxonomy i tt with
    | none => rw [hgt] at hok; cases hok
    | some rks =>
      rw [hgt] at hok
      simp only [Except.ok.injEq] at hok
      subst hok
      refine ⟨?_, ?_, ?_⟩
      · intro info hinfo
        cases hinfo
      · intro _
        refine ⟨rks, rfl, ?_⟩
        rw [find?_append, hf]
        simp [find?, Option.or]
      · intro j hji
        rw [find?_append]
        cases hdj : find? d j with
        | some x => rfl
        | none => simp [find?, Option.or, Ne.symm hji]

/-- C4 witness: a second sighting of id 7 only bumps the counters; a first
sighting of id 99 installs the resolver's rank fields. -/
theorem lineage_resolved_once_witness :
    (find? [(7, TaxonInfo.mk 5 5 7 Ranks.empty)] 7 = some (TaxonInfo.mk 5 5 7 Ranks.empty) →
      ∃ d2, processLine ttScenB [(7, TaxonInfo.mk 5 5 7 Ranks.empty)] "1.0 2 3 S 7 x" = .ok d2 ∧
        find? d2 7 = some (TaxonInfo.mk 7 8 7 Ranks.empty)) ∧
    (∃ d2, processLine ttScenB [] "12.0 9 5 S 99 x" = .ok d2 ∧
      ∃ r, get_taxonomy 99 ttScenB = some r ∧ find? d2 99 = some (TaxonInfo.mk 9 5 99 r)) := by
  constructor
  · intro hmem
    refine ⟨_, rfl, ?_⟩
    have h := lineage_resolved_once ttScenB [(7, TaxonInfo.mk 5 5 7 Ranks.empty)]
      "1.0 2 3 S 7 x" 2 3 7 _ (by rfl) rfl
    exact h.1 _ hmem
  · refine ⟨_, rfl, ?_⟩
    have h := lineage_resolved_once ttScenB [] "12.0 9 5 S 99 x" 9 5 99 _ (by rfl) rfl
    exact h.2.1 rfl

/-! ## C9 -/

/-- C9 counterexample to the claim as stated: Python `int` accepts signed
numbers, so a report line with negative counts decreases both counters of
an existing record. -/
theorem counters_monotone_counterexample :
    processLine ttNone [(7, TaxonInfo.mk 5 5 7 Ranks.empty)] "0.0 -3 -4 S 7 x" =
      .ok [(7, TaxonInfo.mk 2 1 7 Ranks.empty)] ∧
    hitsTaxonAt [(7, TaxonInfo.mk 2 1 7 Ranks.empty)] 7 <
      hitsTaxonAt [(7, TaxonInfo.mk 5 5 7 Ranks.empty)] 7 ∧
    hitsCladeAt [(7, TaxonInfo.mk 2 1 7 Ranks.empty)] 7 <
      hitsCladeAt [(7, TaxonInfo.mk 5 5 7 Ranks.empty)] 7 := by
  refine ⟨by rfl, by decide, by decide⟩

/-- C9 (amended: provided the parsed clade and taxon counts of the line
are non-negative): ingesting one line never decreases either stored
counter of any taxon id. -/
theorem counters_monotone (tt : TaxonomyTree) (d : TaxonDict) (l : String)
    (d2 : TaxonDict) (hok : processLine tt d l = .ok d2)
    (hnn : ∀ c t i, parseLine l = .ok (c, t, i) → 0 ≤ c ∧ 0 ≤ t) (j : Int) :
    hitsCladeAt d j ≤ hitsCladeAt d2 j ∧ hitsTaxonAt d j ≤ hitsTaxonAt d2 j := by
  obtain ⟨ht, hc⟩ := processLine_counts tt d l d2 hok j
  have hcc : 0 ≤ cladeContrib j l ∧ 0 ≤ taxonContrib j l := by
    cases hp : parseLine l with
    | error e => simp [cladeContrib, taxonContrib, hp]
    | ok trip =>
      obtain ⟨c, t, i⟩ := trip
      obtain ⟨hc0, ht0⟩ := hnn c t i hp
      constructor
      · simp only [cladeContrib, hp]
        split
        · exact hc0
        · exact le_refl 0
      · simp only [taxonContrib, hp]
        split
        · exact ht0
        · exact le_refl 0
  constructor
  · rw [hc]
    exact le_add_of_nonneg_right hcc.1
  · rw [ht]
    exact le_add_of_nonneg_right hcc.2

/-- C9 witness: a non-negative line bumps counters weakly upward. -/
theorem counters_monotone_witness :
    hitsCladeAt [(7, TaxonInfo.mk 5 5 7 Ranks.empty)] 7 ≤
      hitsCladeAt [(7, TaxonInfo.mk 8 9 7 Ranks.empty)] 7 ∧
    hitsTaxonAt [(7, TaxonInfo.mk 5 5 7 Ranks.empty)] 7 ≤
      hitsTaxonAt [(7, TaxonInfo.mk 8 9 7 Ranks.empty)] 7 :=
  counters_monotone ttNone [(7, TaxonInfo.mk 5 5 7 Ranks.empty)] "0.0 3 4 S 7 x"
    [(7, TaxonInfo.mk 8 9 7 Ranks.empty)] rfl
    (by
      intro c t i hp
      rw [show parseLine "0.0 3 4 S 7 x" = Except.ok ((3 : Int), (4 : Int), (7 : Int)) from rfl] at hp
      simp only [Except.ok.injEq, Prod.mk.injEq] at hp
      obtain ⟨rfl, rfl, rfl⟩ := hp
      decide) 7

/-! ## Pipeline decomposition -/

theorem kraken2krona_ok_elim (tt : TaxonomyTree) (files : List (List String))
    (flag : Bool) (rows : List (List String))
    (h : kraken2krona tt files flag = .ok rows) :
    ∃ d table named, aggregate tt files = .ok d ∧
      buildTable (d.map Prod.snd) = .ok table ∧
      nameEmptyRows tt (dropUnclassified flag table) = .ok named ∧
      rows = named.map emitFields := by
  unfold kraken2krona at h
  cases ha : aggregate tt files with
  | error e => rw [ha] at h; cases h
  | ok d =>
    rw [ha] at h
    dsimp only at h
    cases hb : buildTable (d.map Prod.snd) with
    | error e => rw [hb] at h; cases h
    | ok table =>
      rw [hb] at h
      dsimp only at h
      cases hn : nameEmptyRows tt (dropUnclassified flag table) with
      | error e => rw [hn] at h; cases h
      | ok named =>
        rw [hn] at h
        simp only [Except.ok.injEq] at h
        exact ⟨d, table, named, rfl, hb, hn, h.symm⟩

theorem buildTable_ok (records table : List TaxonInfo)
    (h : buildTable records = .ok table) : table = records ∧ records ≠ [] := by
  unfold buildTable at h
  cases hr : records.isEmpty with
  | true =>
    rw [hr, if_pos rfl] at h
    cases h
  | false =>
    rw [hr] at h
    simp only [Bool.false_eq_true, if_false, Except.ok.injEq] at h
    refine ⟨h.symm, ?_⟩
    intro hcontra
    rw [hcontra] at hr
    cases hr

/-! ## C7 -/

/-- C7: every row a successful run emits has exactly 9 fields; the first
field is the rendered taxon-level hit count; absent rank values render as
the empty field; and the row is computed from the taxon count and rank
fields only, so the taxon id and the clade-level count appear in no
output row (changing them changes nothing). -/
theorem column_contract (tt : TaxonomyTree) (files : List (List String))
    (flag : Bool) (rows : List (List String))
    (hok : kraken2krona tt files flag = .ok rows) :
    (∀ row ∈ rows, row.length = 9) ∧
    (∀ info : TaxonInfo, (emitFields info).get? 0 = some (toString info.hits_at_taxon)) ∧
    (renderOpt none = "") ∧
    (∀ (info : TaxonInfo) (c i : Int),
      emitFields { info with hits_at_clade := c, t_id := i } = emitFields info) := by
  refine ⟨?_, fun info => rfl, rfl, fun info c i => rfl⟩
  intro row hrow
  obtain ⟨d, table, named, ha, hb, hn, hrows⟩ :=
    kraken2krona_ok_elim tt files flag rows hok
  subst hrows
  obtain ⟨info, hinfo, rfl⟩ := List.mem_map.mp hrow
  rfl

/-- C7 witness: the row the Scenario A run emits has 9 fields. -/
theorem column_contract_witness :
    (["8", "Bacteria", "", "", "", "", "", "", "X"] : List String).length = 9 :=
  (column_contract ttScenA [["50.00 12 8 S 1234 Some name"]] false
    [["8", "Bacteria", "", "", "", "", "", "", "X"]] rfl).1
    ["8", "Bacteria", "", "", "", "", "", "", "X"] (List.mem_cons_self _ _)

/-! ## C10 -/

/-- C10: if every input file has zero lines, the aggregated record set is
empty and the run fails at table construction (pandas `set_index` on a
column-less frame) before any emission. -/
theorem empty_input_error (tt : TaxonomyTree) (files : List (List String))
    (flag : Bool) (hfiles : ∀ f ∈ files, f = ([] : List String)) :
    kraken2krona tt files flag = .error .emptyTable := by
  have hagg : ∀ fs, (∀ f ∈ fs, f = ([] : List String)) →
      ∀ d : TaxonDict, aggregateFrom tt fs d = .ok d := by
    intro fs
    induction fs with
    | nil => intro _ d; rfl
    | cons f fs ih =>
      intro hf d
      have hfe : f = [] := hf f (List.mem_cons_self _ _)
      subst hfe
      unfold aggregateFrom parse_report
      exact ih (fun x hx => hf x (List.mem_cons_of_mem _ hx)) d
  have ha : aggregate tt files = .ok [] := hagg files hfiles []
  unfold kraken2krona
  rw [ha]
  rfl

/-- C10 witness: two empty report files make the run abort with the
empty-table error. -/
theorem empty_input_error_witness :
    kraken2krona ttNone [[], []] true = .error .emptyTable :=
  empty_input_error ttNone [[], []] true (by
    intro f hf
    rcases List.mem_cons.mp hf with rfl | hf2
    · rfl
    · rcases List.mem_cons.mp hf2 with rfl | hf3
      · rfl
      · cases hf3)

/-! ## C5 -/

/-- A malformed report line in the sense of the spec: fewer than 5
whitespace-delimited fields, or a token at position 1, 2 or 4 that Python
`int` rejects (a missing token is read as the empty string, which `int`
also rejects). -/
def badLine (l : String) : Prop :=
  (splitWs l).length < 5 ∨
  intOfString? (((splitWs l).get? 1).getD "") = none ∨
  intOfString? (((splitWs l).get? 2).getD "") = none ∨
  intOfString? (((splitWs l).get? 4).getD "") = none

theorem parseField_err (tokens : List String) (k : Nat) (e : K2KError)
    (h : parseField tokens k = .error e) : e = .malformedLine := by
  unfold parseField at h
  cases hg : tokens.get? k with
  | none =>
    rw [hg] at h
    cases h
    rfl
  | some s =>
    rw [hg] at h
    dsimp only at h
    cases hv : intOfString? s with
    | none => rw [hv] at h; cases h; rfl
    | some n => rw [hv] at h; cases h

theorem parseField_ok (tokens : List String) (k : Nat) (n : Int)
    (h : parseField tokens k = .ok n) :
    ∃ s, tokens.get? k = some s ∧ intOfString? s = some n := by
  unfold parseField at h
  cases hg : tokens.get? k with
  | none => rw [hg] at h; cases h
  | some s =>
    rw [hg] at h
    dsimp only at h
    cases hv : intOfString? s with
    | none => rw [hv] at h; cases h
    | some m =>
      rw [hv] at h
      cases h
      exact ⟨s, rfl, hv⟩

theorem parseLine_err_of_bad (l : String) (hbad : badLine l) :
    parseLine l = .error .malformedLine := by
  unfold parseLine
  cases h1 : parseField (splitWs l) 1 with
  | error e => rw [parseField_err _ _ _ h1]
  | ok c =>
    cases h2 : parseField (splitWs l) 2 with
    | error e => rw [parseField_err _ _ _ h2]
    | ok t =>
      cases h4 : parseField (splitWs l) 4 with
      | error e => rw [parseField_err _ _ _ h4]
      | ok i =>
        exfalso
        obtain ⟨s1, hg1, hv1⟩ := parseField_ok _ _ _ h1
        obtain ⟨s2, hg2, hv2⟩ := parseField_ok _ _ _ h2
        obtain ⟨s4, hg4, hv4⟩ := parseField_ok _ _ _ h4
        have hlen : 4 < (splitWs l).length := (List.get?_eq_some.mp hg4).1
        rcases hbad with hb | hb | hb | hb
        · omega
        · rw [hg1] at hb
          simp only [Option.getD_some] at hb
          rw [hb] at hv1
          cases hv1
        · rw [hg2] at hb
          simp only [Option.getD_some] at hb
          rw [hb] at hv2
          cases hv2
        · rw [hg4] at hb
          simp only [Option.getD_some] at hb
          rw [hb] at hv4
          cases hv4

theorem processLine_err_of_bad (tt : TaxonomyTree) (d : TaxonDict)
    (l : String) (hbad : badLine l) :
    processLine tt d l = .error .malformedLine := by
  unfold processLine
  rw [parseLine_err_of_bad l hbad]

theorem parse_report_append (tt : TaxonomyTree) (xs ys : List String)
    (d : TaxonDict) :
    parse_report tt (xs ++ ys) d =
      match parse_report tt xs d with
      | .error e => .error e
      | .ok d1 => parse_report tt ys d1 := by
  induction xs generalizing d with
  | nil => rfl
  | cons x xs ih =>
    rw [List.cons_append]
    cases hx : processLine tt d x with
    | error e =>
      unfold parse_report
      rw [hx]
    | ok d1 =>
      unfold parse_report
      rw [hx]
      dsimp only
      rw [ih d1]
      cases hxs : parse_report tt xs d1 with
      | error e => rfl
      | ok d2 => cases ys <;> rfl

theorem parse_report_err_of_bad (tt : TaxonomyTree) (pre : List String)
    (l : String) (hbad : badLine l) (d : TaxonDict) :
    ∃ e, parse_report tt (pre ++ [l]) d = .error e := by
  rw [parse_report_append]
  cases hp : parse_report tt pre d with
  | error e => exact ⟨e, rfl⟩
  | ok d1 =>
    refine ⟨.malformedLine, ?_⟩
    unfold parse_report
    rw [processLine_err_of_bad tt d1 l hbad]

theorem aggregateFrom_err (tt : TaxonomyTree) (fs : List (List String))
    (file : List String) (hfile : file ∈ fs)
    (herr : ∀ d : TaxonDict, ∃ e, parse_report tt file d = .error e)
    (d0 : TaxonDict) : ∃ e, aggregateFrom tt fs d0 = .error e := by
  induction fs generalizing d0 with
  | nil => cases hfile
  | cons f fs ih =>
    unfold aggregateFrom
    cases hpf : parse_report tt f d0 with
    | error e => exact ⟨e, rfl⟩
    | ok d1 =>
      rcases List.mem_cons.mp hfile with rfl | hmem
      · obtain ⟨e, he⟩ := herr d0
        rw [he] at hpf
        cases hpf
      · exact ih hmem d1

/-- C5: a report line with fewer than 5 whitespace-delimited fields, or a
non-integer token in positions 1, 2 or 4, is fatal: the whole run returns
an error (so no aggregation is surfaced as output), and the rest of that
report stream is never processed (parsing the file equals parsing only up
to and including the bad line, whatever the accumulated state). -/
theorem malformed_line_fatal (tt : TaxonomyTree) (files : List (List String))
    (flag : Bool) (file pre post : List String) (l : String)
    (hfile : file ∈ files) (hsplit : file = pre ++ l :: post)
    (hbad : badLine l) :
    (∃ e, kraken2krona tt files flag = .error e) ∧
    (∀ d : TaxonDict, ∃ e, parse_report tt file d = .error e) ∧
    (∀ d : TaxonDict, parse_report tt file d = parse_report tt (pre ++ [l]) d) := by
  have hstop : ∀ d : TaxonDict, parse_report tt file d = parse_report tt (pre ++ [l]) d := by
    intro d
    rw [hsplit, show pre ++ l :: post = (pre ++ [l]) ++ post by simp]
    rw [parse_report_append tt (pre ++ [l]) post d]
    obtain ⟨e, he⟩ := parse_report_err_of_bad tt pre l hbad d
    rw [he]
  have herr : ∀ d : TaxonDict, ∃ e, parse_report tt file d = .error e := by
    intro d
    rw [hstop d]
    exact parse_report_err_of_bad tt pre l hbad d
  refine ⟨?_, herr, hstop⟩
  obtain ⟨e, he⟩ := aggregateFrom_err tt files file hfile herr []
  refine ⟨e, ?_⟩
  unfold kraken2krona
  rw [show aggregate tt files = .error e from he]

/-- C5 witness: a 3-field line aborts the whole run with no output. -/
theorem malformed_line_fatal_witness :
    (∃ e, kraken2krona ttNone [["50.00 12 8"]] true = .error e) ∧
    (∀ d : TaxonDict, ∃ e, parse_report ttNone ["50.00 12 8"] d = .error e) := by
  have h := malformed_line_fatal ttNone [["50.00 12 8"]] true ["50.00 12 8"] [] []
    "50.00 12 8" (List.mem_cons_self _ _) rfl (by left; decide)
  exact ⟨h.1, h.2.1⟩

/-! ## C1 -/

theorem taxonSum_flatten (i : Int) (fs : List (List String)) :
    taxonSum i fs.flatten = (fs.map fun f => taxonSum i f).sum := by
  induction fs with
  | nil => rfl
  | cons f fs ih =>
    rw [List.flatten_cons]
    simp only [taxonSum, List.map_append, List.sum_append,
      List.map_cons, List.sum_cons] at ih ⊢
    rw [ih]

theorem cladeSum_flatten (i : Int) (fs : List (List String)) :
    cladeSum i fs.flatten = (fs.map fun f => cladeSum i f).sum := by
  induction fs with
  | nil => rfl
  | cons f fs ih =>
    rw [List.flatten_cons]
    simp only [cladeSum, List.map_append, List.sum_append,
      List.map_cons, List.sum_cons] at ih ⊢
    rw [ih]

/-- C1: aggregating the same report files in any order succeeds on the
same inputs and yields identical `hits_at_clade` and `hits_at_taxon`
counters for every taxon id; moreover each counter is exactly the sum of
that id's per-line counts over all lines of all files, which is what
forces Scenario B's merged 5 + 7 = 12. -/
theorem count_merge_commutes (tt : TaxonomyTree)
    (files files2 : List (List String)) (d : TaxonDict)
    (hperm : files2.Perm files) (hok : aggregate tt files = .ok d) :
    ∃ d2, aggregate tt files2 = .ok d2 ∧
      ∀ i, hitsTaxonAt d2 i = hitsTaxonAt d i ∧
           hitsCladeAt d2 i = hitsCladeAt d i ∧
           hitsTaxonAt d i = taxonSum i files.flatten ∧
           hitsCladeAt d i = cladeSum i files.flatten := by
  have hgood : ∀ l ∈ files.flatten, goodLine tt l :=
    aggregate_good_of_ok tt files d hok
  have hgood2 : ∀ l ∈ files2.flatten, goodLine tt l := by
    intro l hl
    rw [List.mem_flatten] at hl
    obtain ⟨f, hf, hlf⟩ := hl
    exact hgood l (List.mem_flatten.mpr ⟨f, hperm.mem_iff.mp hf, hlf⟩)
  obtain ⟨d2, hd2⟩ := aggregateFrom_ok_of_good tt files2 hgood2 []
  refine ⟨d2, hd2, ?_⟩
  intro i
  obtain ⟨ht2, hc2⟩ := aggregate_counts tt files2 d2 hd2 i
  obtain ⟨ht, hc⟩ := aggregate_counts tt files d hok i
  have htsum : taxonSum i files2.flatten = taxonSum i files.flatten := by
    rw [taxonSum_flatten, taxonSum_flatten]
    exact List.Perm.sum_eq (hperm.map fun f => taxonSum i f)
  have hcsum : cladeSum i files2.flatten = cladeSum i files.flatten := by
    rw [cladeSum_flatten, cladeSum_flatten]
    exact List.Perm.sum_eq (hperm.map fun f => cladeSum i f)
  exact ⟨by rw [ht2, ht, htsum], by rw [hc2, hc, hcsum], ht, hc⟩

/-- C1 witness (Scenario B): two one-line files for taxon id 99 with
taxon counts 5 and 7, aggregated in either order, agree and give
`hits_at_taxon` 5 + 7 = 12. -/
theorem count_merge_commutes_witness :
    (∃ d2, aggregate ttScenB [["13.0 7 7 S 99 x"], ["12.0 5 5 S 99 x"]] = .ok d2 ∧
      ∀ i, hitsTaxonAt d2 i =
             hitsTaxonAt [(99, TaxonInfo.mk 12 12 99
               (Ranks.mk none none none none none none none (some "Niner")))] i ∧
           hitsCladeAt d2 i =
             hitsCladeAt [(99, TaxonInfo.mk 12 12 99
               (Ranks.mk none none none none none none none (some "Niner")))] i ∧
           hitsTaxonAt [(99, TaxonInfo.mk 12 12 99
               (Ranks.mk none none none none none none none (some "Niner")))] i =
             taxonSum i ([["12.0 5 5 S 99 x"], ["13.0 7 7 S 99 x"]] : List (List String)).flatten ∧
           hitsCladeAt [(99, TaxonInfo.mk 12 12 99
               (Ranks.mk none none none none none none none (some "Niner")))] i =
             cladeSum i ([["12.0 5 5 S 99 x"], ["13.0 7 7 S 99 x"]] : List (List String)).flatten) ∧
    hitsTaxonAt [(99, TaxonInfo.mk 12 12 99
      (Ranks.mk none none none none none none none (some "Niner")))] 99 = 12 := by
  refine ⟨?_, by decide⟩
  exact count_merge_commutes ttScenB [["12.0 5 5 S 99 x"], ["13.0 7 7 S 99 x"]]
    [["13.0 7 7 S 99 x"], ["12.0 5 5 S 99 x"]]
    [(99, TaxonInfo.mk 12 12 99
      (Ranks.mk none none none none none none none (some "Niner")))]
    (List.Perm.swap _ _ _) rfl

/-! ## C8 -/

theorem nameEmptyRows_cons (tt : TaxonomyTree) (a : TaxonInfo)
    (rest : List TaxonInfo) :
    nameEmptyRows tt (a :: rest) =
      match nameEmptyRow tt a with
      | .error e => .error e
      | .ok b =>
        match nameEmptyRows tt rest with
        | .error e => .error e
        | .ok bs => .ok (b :: bs) := rfl

theorem dropUnclassified_true (records : List TaxonInfo) :
    dropUnclassified true records = records := rfl

theorem dropUnclassified_false (records : List TaxonInfo) :
    dropUnclassified false records = records.filter fun info => info.t_id != 0 := rfl

/-- Naming first and then dropping the unclassified row gives the same
record set as dropping first and then naming: the only record the filter
removes is the id-0 one, whose naming never fails and never changes its
id. -/
theorem nameEmptyRows_filter_comm (tt : TaxonomyTree) (recs : List TaxonInfo) :
    nameEmptyRows tt (recs.filter fun info => info.t_id != 0) =
      Except.map (fun named => named.filter fun info => info.t_id != 0)
        (nameEmptyRows tt recs) := by
  induction recs with
  | nil => rfl
  | cons a rest ih =>
    rw [List.filter_cons]
    by_cases h0 : a.t_id = 0
    · have hfa : (a.t_id != 0) = false := by simp [h0]
      rw [hfa]
      simp only [Bool.false_eq_true, if_false]
      rw [ih, nameEmptyRows_cons]
      obtain ⟨b, hb, hb0⟩ := nameEmptyRow_zero_ok tt a h0
      rw [hb]
      cases hrest : nameEmptyRows tt rest with
      | error e => rfl
      | ok bs =>
        dsimp only [Except.map]
        rw [List.filter_cons]
        have hfb : (b.t_id != 0) = false := by simp [hb0]
        rw [hfb]
        simp
    · have hfa : (a.t_id != 0) = true := by simp [h0]
      rw [hfa]
      simp only [if_true]
      rw [nameEmptyRows_cons, nameEmptyRows_cons]
      cases hb : nameEmptyRow tt a with
      | error e => rfl
      | ok b =>
        dsimp only
        rw [ih]
        cases hrest : nameEmptyRows tt rest with
        | error e => rfl
        | ok bs =>
          dsimp only [Except.map]
          rw [List.filter_cons]
          have hbz : b.t_id = a.t_id := (nameEmptyRow_fields tt a b hb).1
          have hfb : (b.t_id != 0) = true := by simp [hbz, h0]
          rw [hfb]
          simp

/-- Modelled from the spec: the pipeline with the empty-lineage naming
pass placed as §4.3 orders it - once, directly after all input streams
are merged into the table, and only then the unclassified-exclusion
decision and emission. -/
def kraken2kronaSpecOrder (tt : TaxonomyTree) (files : List (List String))
    (include_unclassified : Bool) : Except K2KError (List (List String)) :=
  match aggregate tt files with
  | .error e => .error e
  | .ok d =>
    match buildTable (d.map Prod.snd) with
    | .error e => .error e
    | .ok table =>
      match nameEmptyRows tt table with
      | .error e => .error e
      | .ok named =>
          .ok ((dropUnclassified include_unclassified named).map emitFields)

/-- C8: the program behaves exactly as if the empty-lineage naming pass
ran once, after all input streams are merged and before the exclusion
decision and emission: the source's textual order (filter at lines
194-198, naming at 200-207) is observably identical to the spec's order,
because naming and the unclassified filter commute on the record set. -/
theorem naming_pass_position (tt : TaxonomyTree) (files : List (List String))
    (flag : Bool) :
    kraken2krona tt files flag = kraken2kronaSpecOrder tt files flag := by
  unfold kraken2krona kraken2kronaSpecOrder
  cases ha : aggregate tt files with
  | error e => rfl
  | ok d =>
    dsimp only
    cases hb : buildTable (d.map Prod.snd) with
    | error e => rfl
    | ok table =>
      dsimp only
      cases flag with
      | true => simp only [dropUnclassified_true]
      | false =>
        simp only [dropUnclassified_false]
        rw [nameEmptyRows_filter_comm]
        cases hn : nameEmptyRows tt table with
        | error e => rfl
        | ok named => rfl

/-! ## C6 -/

/-- C6 counterexample: on Scenario A's single line, with taxon 1234
resolving superkingdom Bacteria and species X, the emitted row has
Bacteria as the second tab-separated field (directly after the count,
since superkingdom is the first rank column); it is not the claimed
string, which leaves the second field empty and puts Bacteria third. -/
theorem scenarioA_counterexample :
    kraken2kronaStrings ttScenA [["50.00 12 8 S 1234 Some name"]] false =
      .ok ["8\tBacteria\t\t\t\t\t\t\tX"] ∧
    kraken2kronaStrings ttScenA [["50.00 12 8 S 1234 Some name"]] false ≠
      .ok ["8\t\tBacteria\t\t\t\t\t\tX"] := by
  refine ⟨rfl, ?_⟩
  intro h
  rw [show kraken2kronaStrings ttScenA [["50.00 12 8 S 1234 Some name"]] false =
      .ok ["8\tBacteria\t\t\t\t\t\t\tX"] from rfl] at h
  simp only [Except.ok.injEq, List.cons.injEq, and_true] at h
  exact absurd h (by decide)

/-- C6 (amended: the single output row is
`8 TAB Bacteria TAB TAB TAB TAB TAB TAB TAB X` - taxon count first, then
superkingdom..species with empty fields for missing ranks, so Bacteria
is the second field, not the third): the Scenario A run emits exactly
that row. -/
theorem scenarioA_amended :
    kraken2kronaStrings ttScenA [["50.00 12 8 S 1234 Some name"]] false =
      .ok ["8\tBacteria\t\t\t\t\t\t\tX"] := rfl

/-! ## C3 -/

theorem countP_congr_mem {α : Type} (l : List α) (p q : α → Bool)
    (h : ∀ a ∈ l, p a = q a) : l.countP p = l.countP q := by
  induction l with
  | nil => rfl
  | cons a rest ih =>
    rw [List.countP_cons, List.countP_cons, h a (List.mem_cons_self _ _),
      ih fun x hx => h x (List.mem_cons_of_mem _ hx)]

theorem forall2_and_mem {α β : Type} {R : α → β → Prop}
    {as : List α} {bs : List β} (h : List.Forall₂ R as bs) :
    List.Forall₂ (fun a b => R a b ∧ a ∈ as) as bs := by
  induction h with
  | nil => exact .nil
  | @cons a0 b0 as0 bs0 hr hrest ih =>
    refine .cons ⟨hr, List.mem_cons_self _ _⟩ ?_
    exact ih.imp fun a b hab => ⟨hab.1, List.mem_cons_of_mem _ hab.2⟩

theorem unclFieldP_emitFields (b : TaxonInfo) :
    unclFieldP (emitFields b) = (b.ranks.t_superkingdom == some "Unclassified") := by
  have h1 : (emitFields b).get? 1 = some (renderOpt b.ranks.t_superkingdom) := rfl
  unfold unclFieldP
  rw [h1]
  cases hsk : b.ranks.t_superkingdom with
  | none => decide
  | some s => rfl

/-- After the naming pass, a record's first rank field reads Unclassified
exactly when the record is the id-0 one (given that the taxonomy offers
no scientific name equal to the string Unclassified). -/
theorem named_sk_iff (tt : TaxonomyTree) (d : TaxonDict) (hw : wfDict tt d)
    (hname : ∀ j s, tt.name j = some s → s ≠ "Unclassified")
    (a b : TaxonInfo) (ha : a ∈ d.map Prod.snd)
    (hab : nameEmptyRow tt a = .ok b) :
    (b.ranks.t_superkingdom == some "Unclassified") = (a.t_id == 0) := by
  obtain ⟨hid, hnd, hrk⟩ := hw
  obtain ⟨p, hp, hpa⟩ := List.mem_map.mp ha
  have hta : a.t_id = p.1 := by rw [← hpa]; exact hid p hp
  have hga : get_taxonomy p.1 tt = some a.ranks := by
    have := hrk p hp
    rw [hpa] at this
    exact this
  by_cases h0 : a.t_id = 0
  · have hp1 : p.1 = 0 := by rw [← hta, h0]
    rw [hp1] at hga
    have hempty : a.ranks = Ranks.empty := by
      have h2 : (some Ranks.empty : Option Ranks) = some a.ranks := hga
      injection h2 with h3
      exact h3.symm
    rw [nameEmptyRow_sk_unclassified tt a b h0 hempty hab]
    have hrhs : (a.t_id == 0) = true := by rw [beq_iff_eq]; exact h0
    rw [hrhs]
    decide
  · have hne := nameEmptyRow_sk_of_nonzero tt a b hname h0
      (get_taxonomy_sk tt p.1 a.ranks hga) hab
    have hlhs : (b.ranks.t_superkingdom == some "Unclassified") = false := by
      rw [beq_eq_false_iff_ne]
      exact hne
    have hrhs : (a.t_id == 0) = false := by
      rw [beq_eq_false_iff_ne]
      exact h0
    rw [hlhs, hrhs]

/-- C3 (amended: provided no scientific name in the taxonomy equals
Unclassified - otherwise a taxon whose superkingdom, or whose
empty-lineage placeholder, carries that name also shows it): with the
include-unclassified flag unset, no emitted row has Unclassified in its
first rank field; with it set and a line for id 0 present, exactly one
row does, and its count field is the sum of taxon-level counts over all
id-0 lines. -/
theorem exclusion_correctness (tt : TaxonomyTree) (files : List (List String))
    (flag : Bool) (rows : List (List String))
    (hname : ∀ j s, tt.name j = some s → s ≠ "Unclassified")
    (hok : kraken2krona tt files flag = .ok rows) :
    (flag = false → rows.countP unclFieldP = 0) ∧
    (flag = true → (∃ l ∈ files.flatten, lineTaxonId l = some 0) →
      rows.countP unclFieldP = 1 ∧
      ∀ row ∈ rows, unclFieldP row = true →
        row.get? 0 = some (toString (taxonSum 0 files.flatten))) := by
  obtain ⟨d, table, named, ha, hb, hn, hrows⟩ :=
    kraken2krona_ok_elim tt files flag rows hok
  obtain ⟨htab, hnonempty⟩ := buildTable_ok _ _ hb
  subst htab
  have hw := aggregate_wf tt files d ha
  have hf2 := nameEmptyRows_forall2 tt _ named hn
  have hcount : rows.countP unclFieldP =
      (dropUnclassified flag (d.map Prod.snd)).countP fun a => a.t_id == 0 := by
    rw [hrows, List.countP_map]
    refine forall2_countP (forall2_and_mem hf2) _ _ ?_
    intro a b hab
    have hamem : a ∈ d.map Prod.snd := by
      cases flag with
      | true =>
        rw [dropUnclassified_true] at hab
        exact hab.2
      | false =>
        rw [dropUnclassified_false] at hab
        exact List.mem_of_mem_filter hab.2
    calc (unclFieldP ∘ emitFields) b
        = unclFieldP (emitFields b) := rfl
      _ = (b.ranks.t_superkingdom == some "Unclassified") := unclFieldP_emitFields b
      _ = (a.t_id == 0) := named_sk_iff tt d hw hname a b hamem hab.1
  constructor
  · intro hfl
    subst hfl
    rw [hcount, dropUnclassified_false, List.countP_eq_zero]
    intro a hamem
    have h2 := (List.mem_filter.mp hamem).2
    simp only [bne_iff_ne, ne_eq] at h2
    simp only [beq_iff_eq]
    exact h2
  · intro hfl hzero
    subst hfl
    have h0mem : (find? d 0).isSome := by
      obtain ⟨l, hl, hid0⟩ := hzero
      exact aggregate_mem tt files d ha l hl 0 hid0
    have hc1 : (d.map Prod.snd).countP (fun a => a.t_id == 0) = 1 := by
      rw [List.countP_map]
      rw [countP_congr_mem d _ (fun p => p.1 == 0) ?_]
      · exact countP_key_unique d hw.2.1 0 h0mem
      · intro p hp
        have := hw.1 p hp
        simp only [Function.comp_apply, this]
    constructor
    · rw [hcount, dropUnclassified_true, hc1]
    · intro row hrow huncl
      rw [hrows] at hrow
      obtain ⟨b, hbmem, hrowb⟩ := List.mem_map.mp hrow
      subst hrowb
      obtain ⟨a, hamem2, hab⟩ := forall2_mem_right hf2 hbmem
      have hamem : a ∈ d.map Prod.snd := by
        rw [dropUnclassified_true] at hamem2
        exact hamem2
      have hiff := named_sk_iff tt d hw hname a b hamem hab
      rw [unclFieldP_emitFields, hiff, beq_iff_eq] at huncl
      obtain ⟨p, hp, hpa⟩ := List.mem_map.mp hamem
      have hta : a.t_id = p.1 := by rw [← hpa]; exact hw.1 p hp
      have hp1 : p.1 = 0 := by rw [← hta, huncl]
      have hfind : find? d 0 = some a := by
        have hfm := find?_of_mem d p hw.2.1 hp
        rw [hp1] at hfm
        rw [hfm, hpa]
      have hh : hitsTaxonAt d 0 = a.hits_at_taxon := by
        unfold hitsTaxonAt
        rw [hfind]
      have hsum := (aggregate_counts tt files d ha 0).1
      have hbt : b.hits_at_taxon = a.hits_at_taxon :=
        (nameEmptyRow_fields tt a b hab).2.1
      rw [show (emitFields b).get? 0 = some (toString b.hits_at_taxon) from rfl]
      rw [hbt, ← hh, hsum]

/-- A taxonomy on which the claim as stated fails: taxon 5 is a species
named Y whose superkingdom ancestor (node 2) is named Unclassified. -/
def ttUncl : TaxonomyTree :=
  { lineage := fun i => if i = 5 then some [5, 2] else none,
    rank := fun i =>
      if i = 5 then some "species"
      else if i = 2 then some "superkingdom" else none,
    name := fun i =>
      if i = 5 then some "Y"
      else if i = 2 then some "Unclassified" else none }

/-- C3 counterexample to the claim as stated: with the flag unset and no
id-0 line at all, the run still emits a row whose first rank field is
Unclassified, because a superkingdom really named Unclassified is copied
verbatim. -/
theorem exclusion_counterexample :
    kraken2krona ttUncl [["1.0 4 4 S 5 y"]] false =
      .ok [["4", "Unclassified", "", "", "", "", "", "", "Y"]] ∧
    unclFieldP ["4", "Unclassified", "", "", "", "", "", "", "Y"] = true := by
  exact ⟨rfl, by decide⟩

/-- The taxonomy used by the C3 witness: taxon 6 is a genus named Gee. -/
def ttW3 : TaxonomyTree :=
  { lineage := fun i => if i = 6 then some [6] else none,
    rank := fun i => if i = 6 then some "genus" else none,
    name := fun i => if i = 6 then some "Gee" else none }

/-- C3 witness: a run with one id-0 line (count 3) and one id-6 line,
flag set, emits exactly one Unclassified-marked row. -/
theorem exclusion_correctness_witness :
    kraken2krona ttW3 [["0.5 3 3 U 0 unclassified", "99.5 9 9 G 6 Gee"]] true =
      .ok [["3", "Unclassified", "", "", "", "", "", "", ""],
           ["9", "", "", "", "", "", "", "Gee", ""]] ∧
    ([["3", "Unclassified", "", "", "", "", "", "", ""],
      ["9", "", "", "", "", "", "", "Gee", ""]] :
        List (List String)).countP unclFieldP = 1 := by
  have hname : ∀ j s, ttW3.name j = some s → s ≠ "Unclassified" := by
    intro j s hjs
    by_cases hj : j = 6
    · rw [show ttW3.name j = if j = 6 then some "Gee" else none from rfl,
        if_pos hj] at hjs
      injection hjs with hs
      rw [← hs]
      decide
    · rw [show ttW3.name j = if j = 6 then some "Gee" else none from rfl,
        if_neg hj] at hjs
      cases hjs
  have h := exclusion_correctness ttW3
    [["0.5 3 3 U 0 unclassified", "99.5 9 9 G 6 Gee"]] true
    [["3", "Unclassified", "", "", "", "", "", "", ""],
     ["9", "", "", "", "", "", "", "Gee", ""]] hname rfl
  refine ⟨rfl, ?_⟩
  exact (h.2 rfl ⟨"0.5 3 3 U 0 unclassified", List.mem_cons_self _ _, rfl⟩).1

end Kraken2Krona
